import Mathlib

/-!
# Verification of the wadup content-processing engine core

Shallow embedding of the host runtime of the `wadup2` repository
(`crates/wadup-core`): the metadata sink, the content model and store, the
work-stealing deque discipline, the precompile cache, the in-memory
filesystem, and the WASI host's `fd_write`/`fd_close`/`environ_*` surface.
Each definition is translated from the named Rust source function; theorems
settle the specification claims against these definitions.
-/

namespace Wadup

set_option autoImplicit false

/-! ## Data model (`bindings_types.rs`)

`DataType` and `Column` are taken verbatim from `bindings_types.rs`.
`Value::Float64(f64)` carries an IEEE double in the source; the only
operation the embedded code performs on it is `f.to_string()`
(`metadata.rs:169`), so the model carries that decimal rendering directly.
`Value::Boolean` exists in `bindings_types.rs` but `MetadataStore::insert_row`
matches only the `Int64`/`Float64`/`String` arms, so the model keeps those
three. -/

inductive DataType where
  | int64
  | float64
  | string
  | boolean
  deriving DecidableEq, Repr

structure Column where
  name : String
  data_type : DataType
  deriving DecidableEq, Repr

structure TableSchema where
  name : String
  columns : List Column
  deriving DecidableEq, Repr

inductive Value where
  | int64 (i : Int)
  | float64 (rendered : String)
  | string (s : String)
  deriving DecidableEq, Repr

/-- Rendering used when flattening a row value into the document's column
map (`metadata.rs:167-171`). -/
def Value.render : Value → String
  | .int64 i => toString i
  | .float64 r => r
  | .string s => s

/-! ## Metadata store (`metadata.rs`)

The store's `table_schemas: Arc<Mutex<HashMap<String, Vec<String>>>>` maps a
table name to its declared column *names* (`define_table` drops the column
types).  The `HashMap` is modelled as a function map `String → Option (List
String)`.  The Elasticsearch `POST` performed by `insert_row` is external
I/O; the model returns the `RowDoc` that would be posted, and a post failure
is not modelled (the claims concern the validation logic before the post). -/

/-- Table-name → declared column names, as held in
`MetadataStore.table_schemas`. -/
def SchemaMap : Type := String → Option (List String)

def SchemaMap.empty : SchemaMap := fun _ => none

/-- From `MetadataStore::define_table` (`metadata.rs:138-145`): collect the
column names and unconditionally `insert` them under the table name,
returning `Ok(())`.  No comparison with any prior declaration is made. -/
def defineTable (schemas : SchemaMap) (schema : TableSchema) :
    Except String SchemaMap :=
  let column_names := schema.columns.map (·.name)
  .ok (fun name =>
    if name = schema.name then some column_names else schemas name)

/-- Per-content tracking state (`metadata.rs:50-54`, `ContentState`): only
the `current_module` field is consulted by `insert_row`. -/
structure ContentState where
  filename : String
  parent_uuid : Option String
  current_module : Option String

/-- Map modelling `content_state: Arc<Mutex<HashMap<String, ContentState>>>`
(`metadata.rs:61`). -/
def ContentStateMap : Type := String → Option ContentState

/-- The flattened column map of a `RowDoc` (`metadata.rs:46`,
`columns: HashMap<String, String>`), as a function map. -/
def ColumnMap : Type := String → Option String

def ColumnMap.empty : ColumnMap := fun _ => none

def ColumnMap.insert (m : ColumnMap) (k v : String) : ColumnMap :=
  fun k' => if k' = k then some v else m k'

/-- From `metadata.rs:163-174`: zip the row values positionally with the
declared column names; a value at an index with no column name (`column_names.get(i)`
is `None`, i.e. more values than columns) is silently skipped, and no type
check of any kind is performed. -/
def buildColumns (column_names : List String) (values : List Value) :
    ColumnMap :=
  (values.enum.foldl (fun m iv =>
    match column_names.get? iv.1 with
    | some col_name => m.insert col_name iv.2.render
    | none => m) ColumnMap.empty)

/-- The document `insert_row` posts (`metadata.rs:36-47`, `RowDoc`), minus
the wall-clock `processed_at` field. -/
structure RowDoc where
  content_uuid : String
  module_name : String
  table_name : String
  columns : ColumnMap

/-- From `MetadataStore::insert_row` (`metadata.rs:148-189`): fail when no
current module is set for the content or no schema is defined for the
table; otherwise build the flattened column map and post the `RowDoc`.
The values' arity and types are never compared with the declared schema. -/
def insertRow (state : ContentStateMap) (schemas : SchemaMap)
    (table uuid : String) (values : List Value) : Except String RowDoc :=
  match (state uuid).bind (·.current_module) with
  | none => .error ("No current module set for content " ++ uuid)
  | some module_name =>
    match schemas table with
    | none => .error ("No schema defined for table " ++ table)
    | some column_names =>
      .ok { content_uuid := uuid
            module_name := module_name
            table_name := table
            columns := buildColumns column_names values }

/-! ## Guest environment (`wasm.rs:593-612`)

The `environ_sizes_get` linker wrapper writes `0` to both the count and the
size out-pointers, and `environ_get` writes nothing into guest memory.  A
guest therefore reads zero environment-variable pointers: the exposed
environment is the empty list.  (`WADUP_FILENAME` is set only by the
separate `wadup test` path, `test_runner.rs:96`, which installs its own
linker.) -/

/-- The `(count, buffer_size)` pair written by the `environ_sizes_get`
wrapper (`wasm.rs:594-603`). -/
def environSizesGet : Nat × Nat := (0, 0)

/-- The environment a guest can observe through
`environ_sizes_get`/`environ_get`: with a reported count of `0` and
`environ_get` writing nothing (`wasm.rs:605-612`), it is empty. -/
def hostEnviron : List (String × String) :=
  List.replicate environSizesGet.1 ("", "")

/-! ## Shared buffers and the content model (`shared_buffer.rs`, `content.rs`)

`SharedBuffer` wraps `bytes::Bytes`; as a byte sequence it is a list of
bytes.  `Bytes::slice(range)` panics when the range is out of bounds, which
`ContentStore::resolve` does not guard against; the resolve model therefore
distinguishes the panic outcome from the `None` (missing parent) outcome.
UUIDs (`uuid::Uuid`, generated by `new_v4`) are modelled as `Nat` supplied
by the caller as fresh values. -/

abbrev SharedBuffer : Type := List Nat

inductive ContentData where
  | owned (buffer : SharedBuffer)
  | borrowed (parent_uuid : Nat) (offset : Nat) (length : Nat)

structure Content where
  uuid : Nat
  data : ContentData
  filename : String
  parent_uuid : Option Nat
  depth : Nat

/-- The content store's map (`content.rs:57-58`,
`Arc<RwLock<HashMap<Uuid, SharedBuffer>>>`) as a function map. -/
def StoreMap : Type := Nat → Option SharedBuffer

def StoreMap.empty : StoreMap := fun _ => none

/-- From `ContentStore::insert` (`content.rs:68-70`). -/
def StoreMap.insert (m : StoreMap) (uuid : Nat) (buffer : SharedBuffer) :
    StoreMap :=
  fun u => if u = uuid then some buffer else m u

/-- From `Content::new_root` (`content.rs:27-35`). -/
def Content.newRoot (fresh : Nat) (buffer : SharedBuffer)
    (filename : String) : Content :=
  { uuid := fresh
    data := .owned buffer
    filename := filename
    parent_uuid := none
    depth := 0 }

/-- From `Content::new_subcontent` (`content.rs:37-54`): bail with a
max-recursion-depth error when `parent.depth >= max_depth`, otherwise build
the child at `depth = parent.depth + 1`.  `anyhow::bail!` is an `Except`
error; the fresh `Uuid::new_v4()` is the `fresh` argument. -/
def Content.newSubcontent (parent : Content) (data : ContentData)
    (filename : String) (max_depth : Nat) (fresh : Nat) :
    Except String Content :=
  if parent.depth ≥ max_depth then
    .error "Max recursion depth exceeded"
  else
    .ok { uuid := fresh
          data := data
          filename := filename
          parent_uuid := some parent.uuid
          depth := parent.depth + 1 }

/-- Outcome of `ContentStore::resolve` (`content.rs:80-89`).  The borrowed
branch computes `parent_buffer.slice(offset..offset + length)`;
`bytes::Bytes::slice` panics when `offset + length` exceeds the buffer's
length, so that outcome is a distinguished constructor rather than a
value. -/
inductive ResolveResult where
  | ok (buffer : SharedBuffer)
  | missingParent
  | panicOutOfBounds
  deriving DecidableEq, Repr

/-- From `ContentStore::resolve` (`content.rs:80-89`). -/
def resolve (store : StoreMap) (content : Content) : ResolveResult :=
  match content.data with
  | .owned buffer => .ok buffer
  | .borrowed parent_uuid offset length =>
    match store parent_uuid with
    | none => .missingParent
    | some parent_buffer =>
      if offset + length ≤ parent_buffer.length then
        .ok ((parent_buffer.drop offset).take length)
      else
        .panicOutOfBounds

/-! ## Sub-content emissions and the scheduler's enqueue step
(`bindings_context.rs`, `processor.rs:293-331`) -/

inductive SubContentData where
  | bytes (b : List Nat)
  | slice (offset : Nat) (length : Nat)

structure SubContentEmission where
  data : SubContentData
  filename : String

/-- One iteration of the sub-content loop in `WorkerThread::process_content`
(`processor.rs:294-331`): for a `Bytes` emission, wrap the buffer, generate
a fresh UUID and insert it into the content store; for a `Slice` emission,
build a `Borrowed` body referencing the processed content's UUID with the
emission's offset and length taken verbatim.  Then `Content::new_subcontent`
either yields a child (pushed onto the worker's deque) or fails the depth
check (logged, nothing enqueued). -/
def buildSubcontent (store : StoreMap) (parent : Content)
    (emission : SubContentEmission) (freshStoreUuid freshContentUuid : Nat)
    (max_depth : Nat) : Except String Content × StoreMap :=
  match emission.data with
  | .bytes b =>
    let store' := store.insert freshStoreUuid b
    (Content.newSubcontent parent (.owned b) emission.filename max_depth
      freshContentUuid, store')
  | .slice offset length =>
    (Content.newSubcontent parent
      (.borrowed parent.uuid offset length) emission.filename max_depth
      freshContentUuid, store)

/-! ## The work-stealing deque (`processor.rs:46-57`, `crossbeam_deque`)

`ContentProcessor::process` creates each worker's deque with
`Worker::new_fifo()` (`processor.rs:47`).  Per the `crossbeam_deque`
documentation, a FIFO worker's `push` adds a task at the back of the queue
and its `pop` removes the *least recently pushed* task (the front); a LIFO
worker's `pop` would remove the most recently pushed task.  The queue is
modelled as a list whose head is the front. -/

abbrev Deque : Type := List Nat

def Deque.empty : Deque := []

/-- From `Worker::push` on a FIFO worker: enqueue at the back. -/
def Deque.push (d : Deque) (item : Nat) : Deque := d ++ [item]

/-- From `Worker::pop` on a FIFO worker (`self.worker.pop()` in
`WorkerThread::get_work`, `processor.rs:150`): dequeue from the front —
the least recently pushed item. -/
def Deque.pop (d : Deque) : Option (Nat × Deque) :=
  match d with
  | [] => none
  | x :: rest => some (x, rest)

/-! ## Precompile cache (`precompile.rs`)

The compiled `wasmtime::Module`, its deserialization and compilation are
opaque to this model: `Module` is a type parameter instantiated at `Nat`,
`deserialize`/`compile`/`serialize` are supplied as functions.  The cache
sidecar file's byte contents (or its absence) are the `cacheFile`
argument; whether the `File::create`/`write_all` calls in
`write_precompiled_cache` succeed is the `writeOk` flag. -/

/-- Value of `u64::from_le_bytes` over 8 bytes (`precompile.rs:66-67`). -/
def u64FromLeBytes (bs : List Nat) : Nat :=
  bs.enum.foldl (fun acc bi => acc + bi.2 * 256 ^ bi.1) 0

/-- Bytes of `u64::to_le_bytes`: 8 little-endian bytes of the value. -/
def u64ToLeBytes (n : Nat) : List Nat :=
  (List.range 8).map (fun i => n / 256 ^ i % 256)

structure CacheHeader where
  engine_hash : Nat
  mtime : Nat
  deriving DecidableEq, Repr

/-- From `read_cache_header` (`precompile.rs:54-70`): `None` when the file is
missing or shorter than the 16-byte header (`read_exact` fails), otherwise
the two little-endian `u64` fields. -/
def readCacheHeader (cacheFile : Option (List Nat)) : Option CacheHeader :=
  match cacheFile with
  | none => none
  | some data =>
    if data.length < 16 then none
    else some { engine_hash := u64FromLeBytes (data.take 8)
                mtime := u64FromLeBytes ((data.drop 8).take 8) }

/-- From `is_cache_valid` (`precompile.rs:73-80`). -/
def isCacheValid (cacheFile : Option (List Nat))
    (current_engine_hash current_mtime : Nat) : Bool :=
  match readCacheHeader cacheFile with
  | some header =>
    header.engine_hash = current_engine_hash ∧ header.mtime = current_mtime
  | none => false

/-- From `write_precompiled_cache` (`precompile.rs:83-99`): header then
serialized module. -/
def writePrecompiledCache (engine_hash mtime : Nat)
    (serialized : List Nat) : List Nat :=
  u64ToLeBytes engine_hash ++ u64ToLeBytes mtime ++ serialized

/-- From `load_module_with_cache` (`precompile.rs:105-151`).  Returns the loaded
module together with the resulting cache-file state.  The cache branch is
taken only when `is_cache_valid` holds, the file body is longer than the
header, and `Module::deserialize` succeeds; otherwise the module is
compiled from source (`Module::from_file`, which may fail) and a fresh
cache write is attempted — `serialize` or write failures are logged and
ignored, leaving the cache file as it was. -/
def loadModuleWithCache {Module : Type} (cacheFile : Option (List Nat))
    (engine_hash mtime : Nat) (deserialize : List Nat → Option Module)
    (compile : Except String Module) (serialize : Module → Option (List Nat))
    (writeOk : Bool) : Except String (Module × Option (List Nat)) :=
  match (if isCacheValid cacheFile engine_hash mtime then
      match cacheFile with
      | some data =>
        if data.length > 16 then deserialize (data.drop 16) else none
      | none => none
    else none : Option Module) with
  | some m => .ok (m, cacheFile)
  | none =>
    match compile with
    | .error e => .error e
    | .ok m =>
      match serialize m with
      | some serialized =>
        if writeOk then
          .ok (m, some (writePrecompiledCache engine_hash mtime serialized))
        else
          .ok (m, cacheFile)
      | none => .ok (m, cacheFile)

/-! ## String helpers mirroring the Rust `str` operations

Rust strings are sequences of characters; the operations the source uses
(`starts_with`, `ends_with`, `trim_start_matches`, `strip_prefix`,
`strip_suffix`, `split('/')`) are modelled on `List Char` (obtained through
`String.toList`). -/

/-- Boolean list-prefix test, mirroring `str::starts_with` after
`String.toList`. -/
def isPrefixL : List Char → List Char → Bool
  | [], _ => true
  | _ :: _, [] => false
  | a :: asRest, b :: bs => a == b && isPrefixL asRest bs

/-- Boolean list-suffix test, mirroring `str::ends_with`. -/
def isSuffixL (p s : List Char) : Bool :=
  isPrefixL p.reverse s.reverse

def rsStartsWith (s p : String) : Bool := isPrefixL p.toList s.toList

def rsEndsWith (s p : String) : Bool := isSuffixL p.toList s.toList

/-- Mirror of `str::strip_prefix`. -/
def stripPrefixL (p s : List Char) : Option (List Char) :=
  if isPrefixL p s then some (s.drop p.length) else none

/-- Mirror of `str::strip_suffix`. -/
def stripSuffixL (p s : List Char) : Option (List Char) :=
  if isSuffixL p s then some (s.take (s.length - p.length)) else none

def rsStripPrefix (s p : String) : Option String :=
  (stripPrefixL p.toList s.toList).map List.asString

def rsStripSuffix (s p : String) : Option String :=
  (stripSuffixL p.toList s.toList).map List.asString

/-- Mirror of `str::trim_start_matches(pattern)`: repeatedly remove the
pattern from the front while it is a prefix (each removal of a non-empty
pattern consumes at least one character, so the string length decreases). -/
def trimStartMatchesL (p s : List Char) : List Char :=
  if h : p ≠ [] ∧ isPrefixL p s = true then
    trimStartMatchesL p (s.drop p.length)
  else s
termination_by s.length
decreasing_by
  have hlen : ∀ (p' s' : List Char), isPrefixL p' s' = true →
      p'.length ≤ s'.length := by
    intro p'
    induction p' with
    | nil => intro s' _; exact Nat.zero_le _
    | cons a asRest ih =>
      intro s' hp
      cases s' with
      | nil => simp [isPrefixL] at hp
      | cons b bs =>
        simp only [isPrefixL, Bool.and_eq_true] at hp
        simpa using ih bs hp.2
  have h1 := hlen p s h.2
  have h2 : 0 < p.length := List.length_pos.mpr h.1
  simp only [List.length_drop]
  omega

def rsTrimStartMatches (s p : String) : String :=
  (trimStartMatchesL p.toList s.toList).asString

/-- Mirror of `str::trim_start_matches('/')` (a char pattern removes every
leading occurrence). -/
def trimLeadingSlashes (s : String) : String :=
  (s.toList.dropWhile (· == '/')).asString

/-- Mirror of `str::split('/')` collected into a `Vec`: split at every
separator, keeping empty pieces. -/
def splitSlashAux : List Char → List Char → List (List Char)
  | [], acc => [acc.reverse]
  | x :: xs, acc =>
    if x == '/' then acc.reverse :: splitSlashAux xs []
    else splitSlashAux xs (x :: acc)

def splitSlash (s : String) : List String :=
  (splitSlashAux s.toList []).map List.asString

/-! ## In-memory filesystem (`memory_fs.rs`)

A `MemoryFile` holds its byte contents and a read/write cursor.  In the
source the cursor is `position: Arc<RwLock<usize>>` and `MemoryFile` derives
`Clone`, so the clone returned by `MemoryDirectory::get_file`
(`memory_fs.rs:198`) aliases the *same* position cell as the stored file and
as every other clone.  The model therefore keeps the one shared cursor in
the stored file, and an open handle is represented by the path it was
opened from (no handle-local state exists in the source).  `readOnly`
distinguishes `MemoryFileData::ReadOnly(Bytes)` from
`MemoryFileData::ReadWrite(Arc<RwLock<BytesMut>>)`.

Directories (`HashMap<String, Entry>`) are association lists; the claims
settled here do not depend on `HashMap` iteration order. -/

structure MemFile where
  readOnly : Bool
  data : List Nat
  pos : Nat
  deriving DecidableEq, Repr

inductive MemEntry where
  | file (f : MemFile)
  | dir (entries : List (String × MemEntry))

/-- Root directory entries of a `MemoryFilesystem` (`memory_fs.rs:246-248`). -/
abbrev Fs : Type := List (String × MemEntry)

def assocGet {β : Type} : List (String × β) → String → Option β
  | [], _ => none
  | (k, v) :: rest, name => if k = name then some v else assocGet rest name

/-- Insert-or-replace, mirroring `HashMap::insert`. -/
def assocSet {β : Type} : List (String × β) → String → β → List (String × β)
  | [], name, v => [(name, v)]
  | (k, w) :: rest, name, v =>
    if k = name then (k, v) :: rest else (k, w) :: assocSet rest name v

/-- Removal, mirroring `HashMap::remove` (absent key: no change, matching
the ignored error of `MemoryDirectory::remove`).  A `HashMap` holds each
key at most once; on the association list this is removal of every
occurrence of the key. -/
def assocRemove {β : Type} : List (String × β) → String → List (String × β)
  | [], _ => []
  | (k, w) :: rest, name =>
    if k = name then assocRemove rest name else (k, w) :: assocRemove rest name

/-- Follow a chain of `get_dir` lookups (`memory_fs.rs:275-278`); fails when
a component is missing or is a file. -/
def followDirs : Fs → List String → Option Fs
  | entries, [] => some entries
  | entries, c :: cs =>
    match assocGet entries c with
    | some (.dir sub) => followDirs sub cs
    | _ => none

/-- Rebuild the tree after applying `f` to the entries of the directory
reached by the component chain. -/
def modifyDirs (f : Fs → Option Fs) : Fs → List String → Option Fs
  | entries, [] => f entries
  | entries, c :: cs =>
    match assocGet entries c with
    | some (.dir sub) =>
      match modifyDirs f sub cs with
      | some sub' => some (assocSet entries c (.dir sub'))
      | none => none
    | _ => none

/-- From `MemoryFilesystem::resolve_path` (`memory_fs.rs:258-281`, and the
identical `WasiCtx::resolve_path`, `wasi_impl.rs:582-602`): trim leading
slashes, reject the empty path, split on `/`; the last component is the
file name and the prior components must resolve through directories.
Returns the directory component chain and the leaf name. -/
def resolvePath (path : String) : Option (List String × String) :=
  let p := trimLeadingSlashes path
  if p = "" then none
  else
    let parts := splitSlash p
    some (parts.dropLast, parts.getLast!)

/-- From `MemoryFilesystem::open_file` = `resolve_path` + `get_file`
(`memory_fs.rs:288-291`, `195-208`): returns the stored file (the source
returns a `clone` that aliases the stored position cell). -/
def getFileAt (fs : Fs) (path : String) : Option MemFile :=
  match resolvePath path with
  | none => none
  | some (dirs, name) =>
    match followDirs fs dirs with
    | none => none
    | some entries =>
      match assocGet entries name with
      | some (.file f) => some f
      | _ => none

/-- Store back the (shared) state of the file at `path`. -/
def setFileAt (fs : Fs) (path : String) (f : MemFile) : Option Fs :=
  match resolvePath path with
  | none => none
  | some (dirs, name) =>
    modifyDirs (fun entries =>
      match assocGet entries name with
      | some (.file _) => some (assocSet entries name (.file f))
      | _ => none) fs dirs

/-- From `MemoryFilesystem::read_file` (`memory_fs.rs:353-358`): open and
`read_to_end`, which returns the bytes from the shared cursor to the end
and leaves the cursor at the end. -/
def readFileFs (fs : Fs) (path : String) : Option (List Nat × Fs) :=
  match getFileAt fs path with
  | none => none
  | some f =>
    match setFileAt fs path { f with pos := f.data.length } with
    | some fs' => some (f.data.drop f.pos, fs')
    | none => none

/-- Removal by path with all errors ignored, as in
`if let Ok((parent_dir, filename)) = self.resolve_path(&path)
\x7b let _ = parent_dir.remove(&filename); \x7d` (`wasi_impl.rs:342-344`,
`395-397`). -/
def removeAt (fs : Fs) (path : String) : Fs :=
  match resolvePath path with
  | none => fs
  | some (dirs, name) =>
    match modifyDirs (fun entries => some (assocRemove entries name)) fs dirs with
    | some fs' => fs'
    | none => fs

/-- From `MemoryFilesystem::create_file` (`memory_fs.rs:283-286`,
`171-181`): fails when the entry already exists, otherwise inserts a
read-write file with cursor `0`. -/
def createFileAt (fs : Fs) (path : String) (data : List Nat) : Option Fs :=
  match resolvePath path with
  | none => none
  | some (dirs, name) =>
    modifyDirs (fun entries =>
      match assocGet entries name with
      | some _ => none
      | none => some (entries ++ [(name, .file ⟨false, data, 0⟩)])) fs dirs

/-- Modelled from the spec: `MemoryFilesystem::take_file_bytes` is called by
`WasiCtx::process_subcontent_metadata` (`wasi_impl.rs:409`) but the method
is absent from `memory_fs.rs` in this source snapshot.  Spec §4.2: "A
`take_file_bytes(path)` operation removes a growable file and returns its
final buffer contents as an immutable shared buffer (used to harvest
sub-content payloads without copying)." -/
def takeFileBytes (fs : Fs) (path : String) : Option (List Nat × Fs) :=
  match getFileAt fs path with
  | some f =>
    if f.readOnly then none
    else some (f.data, removeAt fs path)
  | none => none

/-- From `MemoryFile::read` (`memory_fs.rs:59-92`) through an open handle of
the file at `path`: at or past end-of-data return zero bytes; otherwise
return `min bufLen available` bytes from the shared cursor and advance it. -/
def handleRead (fs : Fs) (path : String) (bufLen : Nat) :
    Option (List Nat × Fs) :=
  match getFileAt fs path with
  | none => none
  | some f =>
    if f.pos ≥ f.data.length then some ([], fs)
    else
      let toRead := min bufLen (f.data.length - f.pos)
      match setFileAt fs path { f with pos := f.pos + toRead } with
      | some fs' => some ((f.data.drop f.pos).take toRead, fs')
      | none => none

/-- Argument of `Seek::seek` (`std::io::SeekFrom`). -/
inductive SeekWhence where
  | start (offset : Nat)
  | current (offset : Int)
  | fromEnd (offset : Int)

/-- From `MemoryFile::seek` (`memory_fs.rs:125-149`): compute the absolute
position; a negative result is an `InvalidInput` error, otherwise the
shared cursor is set and the new position returned. -/
def handleSeek (fs : Fs) (path : String) (whence : SeekWhence) :
    Option (Nat × Fs) :=
  match getFileAt fs path with
  | none => none
  | some f =>
    let newPos : Int :=
      match whence with
      | .start o => (o : Int)
      | .current o => (f.pos : Int) + o
      | .fromEnd o => (f.data.length : Int) + o
    if newPos < 0 then none
    else
      match setFileAt fs path { f with pos := newPos.toNat } with
      | some fs' => some (newPos.toNat, fs')
      | none => none

/-- Position observed through a handle: `fd_tell` is implemented as
`fd_seek(fd, 0, SEEK_CUR)` (`wasm.rs:654-665`). -/
def handleTell (fs : Fs) (path : String) : Option Nat :=
  (handleSeek fs path (.current 0)).map (·.1)

/-- From `MemoryFile::write` (`memory_fs.rs:94-118`): `PermissionDenied` on
a read-only file; otherwise resize with zero fill if writing past the end,
copy the buffer at the shared cursor and advance it. -/
def handleWrite (fs : Fs) (path : String) (buf : List Nat) :
    Option (Nat × Fs) :=
  match getFileAt fs path with
  | none => none
  | some f =>
    if f.readOnly then none
    else
      let padded :=
        if f.data.length < f.pos + buf.length then
          f.data ++ List.replicate (f.pos + buf.length - f.data.length) 0
        else f.data
      let data' := padded.take f.pos ++ buf ++ padded.drop (f.pos + buf.length)
      match setFileAt fs path { f with data := data', pos := f.pos + buf.length } with
      | some fs' => some (buf.length, fs')
      | none => none

/-! ## WASI host (`wasi_impl.rs`) and linker wrappers (`wasm.rs`)

The file-descriptor table (`HashMap<Fd, FileHandle>`) is a function map.
A `FileHandle::File(MemoryFile, Option<String>)` stores a clone of the
memory file — which, as noted above, carries no handle-local state — so the
model keeps the open path (through which the shared file is reached) plus
the optional tracked path.

`fd_write` on the `Stdout`/`Stderr` arms writes the bytes to the host
process's real `std::io::stdout()`/`stderr()` (`wasi_impl.rs:272-290`);
those streams are modelled as byte lists in the state.  There is no capture
buffer and no truncation flag anywhere in `WasiCtx`. -/

inductive Errno where
  | success
  | badf
  | io
  | noent
  | inval
  | exist
  deriving DecidableEq, Repr

inductive FileHandle where
  | file (openPath : String) (track : Option String)
  | directory (openPath : String) (readdirPos : Nat)
  | stdin
  | stdout
  | stderr

/-- Descriptor table and allocator of `WasiCtx` (`wasi_impl.rs:73-77`). -/
structure WasiFdCtx where
  fs : Fs
  table : Nat → Option FileHandle
  nextFd : Nat

/-- Initial table of `WasiCtx::new` (`wasi_impl.rs:80-95`): fds 0-2 are
stdio, fd 3 the preopened root, allocation starts at 4. -/
def WasiFdCtx.init (fs : Fs) : WasiFdCtx :=
  { fs := fs
    table := fun fd =>
      if fd = 0 then some .stdin
      else if fd = 1 then some .stdout
      else if fd = 2 then some .stderr
      else if fd = 3 then some (.directory "/" 0)
      else none
    nextFd := 4 }

/-- From `WasiCtx::should_track_path` (`wasi_impl.rs:105-115`). -/
def shouldTrackPath (path : String) : Option String :=
  if rsStartsWith path "/metadata/" && rsEndsWith path ".json" then some path
  else if rsStartsWith path "/subcontent/metadata_" && rsEndsWith path ".json" then
    some path
  else if rsStartsWith path "/subcontent/data_" then some path
  else none

/-- Host-visible store data (`StoreData`, `wasm.rs:18-22`): the WASI context
plus the processing context's pending emissions
(`ProcessingContext.subcontent/metadata/table_schemas`,
`bindings_context.rs`), and the bytes the `Stdout`/`Stderr` arms of
`fd_write` sent to the host process's streams. -/
structure HostState where
  wasi : WasiFdCtx
  hostStdout : List Nat
  hostStderr : List Nat
  subcontent : List SubContentEmission
  tableSchemas : List TableSchema
  metadataRows : List (String × List Value)

/-- Sequential write of the iovec buffers into the file, accumulating the
total and stopping with `Errno::Io` at the first failing write
(`wasi_impl.rs:261-269`; the state mutated by earlier buffers is kept). -/
def writeAllBufs (fs : Fs) (path : String) :
    List (List Nat) → Nat → (Option Nat × Fs)
  | [], total => (some total, fs)
  | b :: rest, total =>
    match handleWrite fs path b with
    | some (n, fs') => writeAllBufs fs' path rest (total + n)
    | none => (none, fs)

/-- From `WasiCtx::fd_write` (`wasi_impl.rs:252-293`): a `File` handle
writes every buffer through the memory file; `Stdout`/`Stderr` write the
bytes to the host process's real stdout (when `fd == 1`) or stderr
(otherwise); `Stdin`/`Directory` answer `Badf`.  Returns
`(errno, nwritten, state)`. -/
def fdWrite (st : HostState) (fd : Nat) (bufs : List (List Nat)) :
    Errno × Nat × HostState :=
  match st.wasi.table fd with
  | none => (.badf, 0, st)
  | some (.file path _) =>
    match writeAllBufs st.wasi.fs path bufs 0 with
    | (some total, fs') =>
      (.success, total, { st with wasi := { st.wasi with fs := fs' } })
    | (none, fs') =>
      (.io, 0, { st with wasi := { st.wasi with fs := fs' } })
  | some .stdout =>
    let bytes := bufs.flatten
    if fd = 1 then
      (.success, bytes.length, { st with hostStdout := st.hostStdout ++ bytes })
    else
      (.success, bytes.length, { st with hostStderr := st.hostStderr ++ bytes })
  | some .stderr =>
    let bytes := bufs.flatten
    if fd = 1 then
      (.success, bytes.length, { st with hostStdout := st.hostStdout ++ bytes })
    else
      (.success, bytes.length, { st with hostStderr := st.hostStderr ++ bytes })
  | some .stdin => (.badf, 0, st)
  | some (.directory _ _) => (.badf, 0, st)

/-- Parsed shape of `/subcontent/metadata_N.json` (`SubcontentMetadata`,
`wasi_impl.rs:386-391`). -/
structure SubMeta where
  filename : String
  offset : Option Nat
  length : Option Nat

/-- Result of `WasiCtx::fd_close` (`CloseResult`, `wasi_impl.rs:67-70`). -/
structure CloseResult where
  metadata_content : Option (List Nat)
  subcontent_emission : Option SubContentEmission

/-- From `WasiCtx::process_subcontent_metadata` (`wasi_impl.rs:372-418`).
`parseSubMeta` models `String::from_utf8` + `serde_json::from_str` for the
`SubcontentMetadata` shape.  Steps, each `?` aborting with no emission:
extract `N` by stripping the `metadata_` prefix and `.json` suffix of the
path with `/subcontent/` trimmed from the front; read the metadata file;
parse it; then delete the metadata file; then either record a slice
(both `offset` and `length` present) or take the paired data file's bytes
(`take_file_bytes`, which also removes the data file). -/
def processSubcontentMetadata (parseSubMeta : List Nat → Option SubMeta)
    (fs : Fs) (metadataPath : String) : Option SubContentEmission × Fs :=
  match (rsStripPrefix (rsTrimStartMatches metadataPath "/subcontent/")
      "metadata_").bind (fun r => rsStripSuffix r ".json") with
  | none => (none, fs)
  | some n =>
    match readFileFs fs metadataPath with
    | none => (none, fs)
    | some (content, fs1) =>
      match parseSubMeta content with
      | none => (none, fs1)
      | some md =>
        let fs2 := removeAt fs1 metadataPath
        match md.offset, md.length with
        | some o, some l => (some ⟨.slice o l, md.filename⟩, fs2)
        | some _, none =>
          match takeFileBytes fs2 ("/subcontent/data_" ++ n ++ ".bin") with
          | none => (none, fs2)
          | some (b, fs3) => (some ⟨.bytes b, md.filename⟩, fs3)
        | none, _ =>
          match takeFileBytes fs2 ("/subcontent/data_" ++ n ++ ".bin") with
          | none => (none, fs2)
          | some (b, fs3) => (some ⟨.bytes b, md.filename⟩, fs3)

/-- From `WasiCtx::fd_close` (`wasi_impl.rs:326-363`): fds 0-2 are never
closed; otherwise the descriptor is removed from the table and, by the
tracked path, the handle is dispatched to the `/metadata/*.json` read +
delete, the `/subcontent/metadata_N.json` emission processing, the
`/subcontent/data_N.bin` no-op, or the plain success arm.  A missing
descriptor answers `Badf`. -/
def fdClose (parseSubMeta : List Nat → Option SubMeta) (ctx : WasiFdCtx)
    (fd : Nat) : Errno × CloseResult × WasiFdCtx :=
  if fd ≤ 2 then (.success, ⟨none, none⟩, ctx)
  else
    match ctx.table fd with
    | none => (.badf, ⟨none, none⟩, ctx)
    | some h =>
      let ctx1 : WasiFdCtx :=
        { ctx with table := fun k => if k = fd then none else ctx.table k }
      match h with
      | .file _ (some path) =>
        if rsStartsWith path "/metadata/" && rsEndsWith path ".json" then
          match readFileFs ctx1.fs path with
          | some (data, fs1) =>
            (.success, ⟨some data, none⟩, { ctx1 with fs := removeAt fs1 path })
          | none =>
            (.success, ⟨none, none⟩, { ctx1 with fs := removeAt ctx1.fs path })
        else if rsStartsWith path "/subcontent/metadata_" &&
            rsEndsWith path ".json" then
          let (em, fs') := processSubcontentMetadata parseSubMeta ctx1.fs path
          (.success, ⟨none, em⟩, { ctx1 with fs := fs' })
        else if rsStartsWith path "/subcontent/data_" then
          (.success, ⟨none, none⟩, ctx1)
        else
          (.success, ⟨none, none⟩, ctx1)
      | _ => (.success, ⟨none, none⟩, ctx1)

/-- Parsed shape of a `/metadata/*.json` file (`MetadataFile`,
`wasm.rs:1135-1141`). -/
structure MetadataFileContent where
  tables : List TableSchema
  rows : List (String × List Value)

/-- From the `fd_close` linker wrapper (`wasm.rs:459-490`): perform the
WASI close, then, if a `/metadata/*.json` payload came back, parse it and
append its tables and rows to the processing context
(`process_metadata_content`, `wasm.rs:1131-1182`; a parse failure is logged
and dropped); if a sub-content emission came back, push it onto the
context's `subcontent` vector (`process_subcontent_emission`,
`wasm.rs:1192-1207`). -/
def fdCloseHost (parseSubMeta : List Nat → Option SubMeta)
    (parseMetadata : List Nat → Option MetadataFileContent)
    (st : HostState) (fd : Nat) : Errno × HostState :=
  let (errno, res, ctx') := fdClose parseSubMeta st.wasi fd
  let st1 := { st with wasi := ctx' }
  let st2 :=
    match res.metadata_content with
    | some content =>
      match parseMetadata content with
      | some mf =>
        { st1 with tableSchemas := st1.tableSchemas ++ mf.tables
                   metadataRows := st1.metadataRows ++ mf.rows }
      | none => st1
    | none => st1
  let st3 :=
    match res.subcontent_emission with
    | some em => { st2 with subcontent := st2.subcontent ++ [em] }
    | none => st2
  (errno, st3)

/-! ## Auxiliary definitions for the claim statements -/

/-- The cache-miss conditions enumerated by claim C8, expressed over the
embedded cache model: sidecar missing, 16-byte header unreadable, stored
engine hash or mtime differing from the current ones, or deserialization
of the remainder failing. -/
def cacheLoadMiss {Module : Type} (cacheFile : Option (List Nat))
    (engine_hash mtime : Nat) (deserialize : List Nat → Option Module) :
    Prop :=
  cacheFile = none ∨
  (∃ data, cacheFile = some data ∧ data.length < 16) ∨
  (∃ h, readCacheHeader cacheFile = some h ∧
    (h.engine_hash ≠ engine_hash ∨ h.mtime ≠ mtime)) ∨
  (∃ data, cacheFile = some data ∧ deserialize (data.drop 16) = none)

/-- Host state at the start of a guest call: the `WasiCtx::new` descriptor
table over the given filesystem, nothing yet written to the host streams,
and an empty processing context (`ProcessingContext::new`,
`bindings_context.rs:22-34`). -/
def initHostState (fs : Fs) : HostState :=
  { wasi := WasiFdCtx.init fs
    hostStdout := []
    hostStderr := []
    subcontent := []
    tableSchemas := []
    metadataRows := [] }

def oneMB : Nat := 1024 * 1024

/-- Concrete inputs for claim C2: a single iovec buffer of 1 MB + 1 bytes
written to stdout (fd 1). -/
def c2bufs : List (List Nat) := [List.replicate (oneMB + 1) 65]

def c2result : Errno × Nat × HostState := fdWrite (initHostState []) 1 c2bufs

/-- Concrete inputs for claim C4: a 10-byte root content in the store and a
guest slice emission far beyond its bounds. -/
def c4buffer : SharedBuffer := List.replicate 10 0

def c4parent : Content := Content.newRoot 0 c4buffer "root.bin"

def c4store : StoreMap := StoreMap.empty.insert 0 c4buffer

def c4emission : SubContentEmission := ⟨.slice 1000 100, "sliced.bin"⟩

def c4step : Except String Content × StoreMap :=
  buildSubcontent c4store c4parent c4emission 1 2 10

/-- Concrete inputs for claim C5: the same table name declared with an
`Int64` column `x`, then redeclared with a `String` column `y`. -/
def c5schemaInt : TableSchema := ⟨"t", [⟨"x", .int64⟩]⟩

def c5schemaStr : TableSchema := ⟨"t", [⟨"y", .string⟩]⟩

def c5afterFirst : Except String SchemaMap :=
  defineTable SchemaMap.empty c5schemaInt

def c5afterSecond : Except String SchemaMap :=
  c5afterFirst.bind fun m => defineTable m c5schemaStr

/-- The map produced by the first C5 declaration, written out. -/
def c5m1 : SchemaMap :=
  fun name => if name = "t" then some ["x"] else SchemaMap.empty name

/-- The map produced by redeclaring `c5schemaInt` over `c5m1`. -/
def c5m2 : SchemaMap :=
  fun name => if name = "t" then some ["x"] else c5m1 name

/-- Concrete inputs for claim C6: one content with module `modA` set, and
the single-`Int64`-column table `t` declared through `define_table`. -/
def c6state : ContentStateMap :=
  fun uuid => if uuid = "u-1" then some ⟨"sample.bin", none, some "modA"⟩
              else none

def c6schemas : SchemaMap :=
  match defineTable SchemaMap.empty c5schemaInt with
  | .ok m => m
  | .error _ => SchemaMap.empty

/-- Concrete input for claim C9: one growable root-level file with five
bytes and cursor `0`. -/
def c9fs : Fs := [("f", .file ⟨false, [10, 11, 12, 13, 14], 0⟩)]

/-- The filesystem after reading three bytes through one handle of `f`:
the shared cursor sits at `3`. -/
def c9fsAfterRead : Fs := [("f", .file ⟨false, [10, 11, 12, 13, 14], 3⟩)]

/-- Concrete inputs for claim C1: `/subcontent/metadata_0.json` holds one
byte, parsed as a slice emission descriptor. -/
def c1meta : SubMeta := ⟨"kid.bin", some 3, some 4⟩

def c1parseSub : List Nat → Option SubMeta :=
  fun c => if c = [123] then some c1meta else none

def c1parseMeta : List Nat → Option MetadataFileContent := fun _ => none

def c1fs : Fs :=
  [("subcontent", .dir [("metadata_0.json", .file ⟨false, [123], 0⟩)])]

/-- The C1 filesystem after `read_file` moved the shared cursor to the
end. -/
def c1fs1 : Fs :=
  [("subcontent", .dir [("metadata_0.json", .file ⟨false, [123], 1⟩)])]

/-- Host state for C1: descriptor 4 is open on the tracked path
`/subcontent/metadata_0.json`. -/
def c1st : HostState :=
  { wasi :=
    { fs := c1fs
      table := fun fd =>
        if fd = 4 then
          some (.file "subcontent/metadata_0.json"
            (some "/subcontent/metadata_0.json"))
        else (WasiFdCtx.init c1fs).table fd
      nextFd := 5 }
    hostStdout := []
    hostStderr := []
    subcontent := []
    tableSchemas := []
    metadataRows := [] }

/-! # Theorems -/

/-! ## C10 — guest environment -/

/-- **C10, counterexample.** The claim states that the environment exposed
through `environ_sizes_get`/`environ_get` contains at least
`WADUP_FILENAME`.  On the code it is false: `environ_sizes_get` reports a
count of `0` (`wasm.rs:594-603`) and the observable environment holds no
entry for `WADUP_FILENAME` (nor anything else). -/
theorem environ_missing_wadup_filename :
    List.lookup "WADUP_FILENAME" hostEnviron = none ∧
    environSizesGet.1 = 0 :=
  ⟨rfl, rfl⟩

/-- **C10, amended.** The per-content environment exposed through
`environ_sizes_get`/`environ_get` is empty: the reported count and buffer
size are zero and no variable (in particular not `WADUP_FILENAME`) can be
observed.  (`WADUP_FILENAME` is provided only by the separate test-runner
path.) -/
theorem environ_exposed_empty :
    hostEnviron = [] ∧ environSizesGet = (0, 0) ∧
    ∀ name : String, List.lookup name hostEnviron = none :=
  ⟨rfl, rfl, fun _ => rfl⟩

/-! ## C5 — `define_table` -/

/-- **C5, counterexample.** The claim states that redefining a table with
any difference fails with a `SchemaConflict` error while the prior
declaration is retained.  On the code it is false: declaring
`t(x: Int64)` and then `t(y: String)` succeeds (`define_table` always
returns `Ok`), and the stored declaration for `t` becomes `["y"]`,
discarding the prior `["x"]`. -/
theorem defineTable_conflict_not_detected :
    c5afterSecond.isOk = true ∧
    (c5afterSecond.toOption.map fun m => m "t") = some (some ["y"]) ∧
    (c5afterFirst.toOption.map fun m => m "t") = some (some ["x"]) :=
  ⟨rfl, rfl, rfl⟩

/-- **C5, amended.** `define_table` never fails and records only the
column names: redefining a table with a schema identical to the prior
declaration leaves the stored declarations unchanged (a no-op), and
redefining it with any difference also succeeds, overwriting the prior
declaration for that table while leaving every other table unchanged
(last-writer-wins; no `SchemaConflict` exists). -/
theorem defineTable_last_writer_wins (schemas : SchemaMap)
    (s t : TableSchema) (m1 : SchemaMap)
    (h1 : defineTable schemas s = .ok m1) :
    (defineTable m1 t).isOk = true ∧
    ∀ m2, defineTable m1 t = .ok m2 →
      m2 t.name = some (t.columns.map (·.name)) ∧
      (∀ other, other ≠ t.name → m2 other = m1 other) ∧
      (t = s → ∀ name, m2 name = m1 name) := by
  have hm1 : m1 = fun name =>
      if name = s.name then some (s.columns.map (·.name)) else schemas name := by
    simpa [defineTable] using h1.symm
  refine ⟨rfl, ?_⟩
  intro m2 h2
  have hm2 : m2 = fun name =>
      if name = t.name then some (t.columns.map (·.name)) else m1 name := by
    simpa [defineTable] using h2.symm
  subst hm2
  refine ⟨by simp, fun other hother => by simp [hother], ?_⟩
  rintro rfl name
  by_cases hname : name = t.name
  · subst hname
    simp [hm1]
  · simp [hname]

/-- **C5, witness.** Instantiation of `defineTable_last_writer_wins` at the
concrete redeclaration of `c5schemaInt` over the map it produced:
redefinition succeeds and the identical redeclaration leaves the stored
columns of `t` unchanged. -/
theorem defineTable_last_writer_wins_witness :
    (defineTable c5m1 c5schemaInt).isOk = true ∧ c5m2 "t" = c5m1 "t" := by
  have h := defineTable_last_writer_wins SchemaMap.empty c5schemaInt
    c5schemaInt c5m1 rfl
  exact ⟨h.1, (h.2 c5m2 rfl).2.2 rfl "t"⟩

/-! ## C6 — `insert_row` -/

/-- **C6, counterexample.** The claim states that `insert_row` returns an
error when the values' arity differs from the declared column arity or a
value's type tag does not match the declared column type.  On the code it
is false: with table `t` declared as a single `Int64` column `x`, inserting
two values succeeds, and inserting a single `String` value also succeeds —
no arity or type validation exists (`metadata.rs:148-189`). -/
theorem insertRow_accepts_arity_and_type_mismatch :
    (insertRow c6state c6schemas "t" "u-1" [.int64 1, .int64 2]).isOk = true ∧
    (insertRow c6state c6schemas "t" "u-1" [.string "not-an-int"]).isOk = true ∧
    c6schemas "t" = some ["x"] :=
  ⟨rfl, rfl, rfl⟩

/-- **C6, amended.** `insert_row` fails only when no current module is set
for the content or no schema is defined for the target table.  Whenever
both are present it succeeds for *every* list of values — the values are
paired positionally with the declared column names (values beyond the
declared arity are silently dropped by `buildColumns`), and no type check
is performed. -/
theorem insertRow_validates_only_module_and_schema (state : ContentStateMap)
    (schemas : SchemaMap) (table uuid module_name : String)
    (column_names : List String) :
    (∀ values : List Value,
      (state uuid).bind (·.current_module) = some module_name →
      schemas table = some column_names →
      insertRow state schemas table uuid values =
        .ok ⟨uuid, module_name, table, buildColumns column_names values⟩) ∧
    ((state uuid).bind (·.current_module) = none →
      ∀ values, (insertRow state schemas table uuid values).isOk = false) ∧
    (schemas table = none →
      ∀ values, (insertRow state schemas table uuid values).isOk = false) := by
  refine ⟨?_, ?_, ?_⟩
  · intro values hmod hschema
    simp [insertRow, hmod, hschema]
  · intro hmod values
    simp [insertRow, hmod, Except.isOk, Except.toBool]
  · intro hschema values
    cases hmod : (state uuid).bind (·.current_module) with
    | none => simp [insertRow, hmod, Except.isOk, Except.toBool]
    | some m => simp [insertRow, hmod, hschema, Except.isOk, Except.toBool]

/-- **C6, witness.** Instantiation of
`insertRow_validates_only_module_and_schema` at the concrete C6 state: a
well-formed single-value insert into `t` produces the flattened row
document. -/
theorem insertRow_validates_only_module_and_schema_witness :
    insertRow c6state c6schemas "t" "u-1" [.int64 5] =
      .ok ⟨"u-1", "modA", "t", buildColumns ["x"] [.int64 5]⟩ :=
  (insertRow_validates_only_module_and_schema c6state c6schemas "t" "u-1"
    "modA" ["x"]).1 [.int64 5] rfl rfl

/-! ## C7 — recursion-depth bound -/

/-- **C7 (confirmed).** Every `Content` generated by the scheduler from a
sub-content emission has depth equal to its parent's depth plus one and
never exceeding the configured maximum depth, and an emission whose parent
is already at the maximum depth is rejected: `Content::new_subcontent`
fails, so no `Content` is created by `buildSubcontent` (and nothing is
enqueued by `WorkerThread::process_content`). -/
theorem newSubcontent_depth_invariant (parent : Content) (data : ContentData)
    (filename : String) (max_depth fresh : Nat) :
    (∀ c, Content.newSubcontent parent data filename max_depth fresh = .ok c →
      c.depth = parent.depth + 1 ∧ c.depth ≤ max_depth ∧
      c.parent_uuid = some parent.uuid) ∧
    (parent.depth = max_depth →
      (Content.newSubcontent parent data filename max_depth fresh).isOk
        = false ∧
      ∀ (store : StoreMap) (em : SubContentEmission) (u1 u2 : Nat),
        ((buildSubcontent store parent em u1 u2 max_depth).1).isOk = false) := by
  constructor
  · intro c hc
    by_cases hd : parent.depth ≥ max_depth
    · simp [Content.newSubcontent, hd] at hc
    · simp only [Content.newSubcontent, if_neg hd, Except.ok.injEq] at hc
      subst hc
      refine ⟨rfl, ?_, rfl⟩
      simp only []
      omega
  · intro hd
    have hge : parent.depth ≥ max_depth := le_of_eq hd.symm
    constructor
    · simp [Content.newSubcontent, hge, Except.isOk, Except.toBool]
    · intro store em u1 u2
      cases hem : em.data with
      | bytes b =>
        simp [buildSubcontent, hem, Content.newSubcontent, hge,
          Except.isOk, Except.toBool]
      | slice o l =>
        simp [buildSubcontent, hem, Content.newSubcontent, hge,
          Except.isOk, Except.toBool]

/-- **C7, witness.** Instantiation of `newSubcontent_depth_invariant`: a
depth-0 root with `max_depth = 5` yields a child of depth 1 bounded by 5,
and a parent at depth 5 is rejected. -/
theorem newSubcontent_depth_invariant_witness :
    (({ uuid := 9, data := .owned [3], filename := "c",
        parent_uuid := some 0, depth := 1 } : Content).depth
      = (Content.newRoot 0 [1, 2] "r").depth + 1) ∧
    (Content.newSubcontent
      ({ uuid := 3, data := .owned [], filename := "deep",
         parent_uuid := none, depth := 5 } : Content)
      (.owned []) "d" 5 9).isOk = false := by
  refine ⟨?_, ?_⟩
  · exact ((newSubcontent_depth_invariant (Content.newRoot 0 [1, 2] "r")
      (.owned [3]) "c" 5 9).1 _ rfl).1
  · exact ((newSubcontent_depth_invariant
      ({ uuid := 3, data := .owned [], filename := "deep",
         parent_uuid := none, depth := 5 } : Content)
      (.owned []) "d" 5 9).2 rfl).1

/-! ## C3 — local pop discipline -/

/-- **C3 (code evaluation).** The claim states that the local-pop step
takes the most recently pushed item of the worker's deque (LIFO).  The
code creates the deques with `Worker::new_fifo()` (`processor.rs:47`), so
`pop` removes the *least* recently pushed item: after pushing `100` then
`200`, the local pop returns `100`, not `200`. -/
theorem local_pop_takes_least_recent :
    Deque.pop (Deque.push (Deque.push Deque.empty 100) 200)
      = some (100, [200]) ∧ (100 : Nat) ≠ 200 := by
  exact ⟨rfl, by decide⟩

/-! ## C4 — borrowed-content bounds -/

/-- **C4 (code evaluation).** The claim states that for every borrowed
content, `offset + length` is at most the parent's stored buffer length
and resolve never goes out of bounds.  The code copies the guest's
`offset`/`length` verbatim with no bounds check
(`processor.rs:303-309`): against a 10-byte parent, the slice emission
`{offset: 1000, length: 100}` produces an enqueued borrowed child whose
range exceeds the parent's buffer, and resolving it reaches the
out-of-bounds `Bytes::slice` panic. -/
theorem slice_emission_unchecked_out_of_bounds :
    (c4step.1.toOption.map fun c =>
      (c.parent_uuid, c.depth, resolve c4step.2 c)) =
      some (some 0, 1, .panicOutOfBounds) ∧
    c4store 0 = some c4buffer ∧
    c4buffer.length < 1000 + 100 := by
  refine ⟨rfl, rfl, by decide⟩

/-! ## C8 — precompile cache -/

/-- **C8 (confirmed).** For every cache-load attempt where the sidecar is
missing, its 16-byte header is unreadable, the stored engine hash or
mtime differs, or deserialization of the remainder fails
(`cacheLoadMiss`), `load_module_with_cache` compiles the module from
source and attempts to write a fresh cache (header followed by the
serialized artifact, when serialization and the write succeed); a failure
to write the cache (`writeOk = false`) or to serialize leaves the cache
file untouched but never fails the load — the result is `.ok` with the
compiled module either way. -/
theorem cache_miss_compiles_and_write_failure_ignored {Module : Type}
    (cacheFile : Option (List Nat)) (engine_hash mtime : Nat)
    (deserialize : List Nat → Option Module) (m : Module)
    (serialize : Module → Option (List Nat)) (writeOk : Bool)
    (hmiss : cacheLoadMiss cacheFile engine_hash mtime deserialize) :
    loadModuleWithCache cacheFile engine_hash mtime deserialize (.ok m)
        serialize writeOk =
      .ok (m, match serialize m with
              | some s =>
                if writeOk then
                  some (writePrecompiledCache engine_hash mtime s)
                else cacheFile
              | none => cacheFile) := by
  have hnone :
      (if isCacheValid cacheFile engine_hash mtime = true then
        match cacheFile with
        | some data =>
          if data.length > 16 then deserialize (data.drop 16) else none
        | none => none
      else none) = (none : Option Module) := by
    rcases hmiss with h | ⟨data, hdata, hshort⟩ | ⟨hd, hhd, hne⟩ |
        ⟨data, hdata, hdeser⟩
    · subst h
      simp [isCacheValid, readCacheHeader]
    · subst hdata
      simp [isCacheValid, readCacheHeader, hshort]
    · have hvalid : isCacheValid cacheFile engine_hash mtime = false := by
        rcases hne with hne | hne <;> simp [isCacheValid, hhd, hne]
      simp [hvalid]
    · subst hdata
      by_cases hvalid : isCacheValid (some data) engine_hash mtime = true <;>
        by_cases hlen : data.length > 16 <;>
          simp [hvalid, hlen, hdeser]
  rw [loadModuleWithCache.eq_def, hnone]
  cases hser : serialize m <;> cases writeOk <;> simp [hser]

/-- **C8, witness.** Instantiation of
`cache_miss_compiles_and_write_failure_ignored` with a missing sidecar
and a failing cache write: the load still returns the compiled module. -/
theorem cache_miss_compiles_and_write_failure_ignored_witness :
    @loadModuleWithCache Nat none 1 2 (fun _ => none)
      (.ok 7) (fun _ => some [9]) false = .ok (7, none) := by
  have h := @cache_miss_compiles_and_write_failure_ignored Nat
    none 1 2 (fun _ => none) 7 (fun _ => some [9]) false (Or.inl rfl)
  simpa using h

/-! ## C2 — stdout capture -/

/-- **C2 (code evaluation).** The claim states that `fd_write` to stdout
appends to a bounded per-call capture buffer, dropping bytes beyond one
megabyte and setting a truncation flag, so that writing 1 MB + 1 bytes
captures exactly 1 MB with `stdout_truncated = true`.  The code's
`WasiCtx::fd_write` (`wasi_impl.rs:272-290`) instead forwards every byte
to the host process's real stdout: writing `oneMB + 1` bytes reports all
`oneMB + 1` bytes written and passes all of them through (more than the
claimed 1 MB cap), and no capture buffer, truncation flag, or
`take_stdout` exists in `WasiCtx` — the rest of the state is untouched. -/
theorem fd_write_stdout_passthrough_unbounded :
    c2result.1 = .success ∧
    c2result.2.1 = oneMB + 1 ∧
    c2result.2.2.hostStdout = List.replicate (oneMB + 1) 65 ∧
    oneMB < c2result.2.2.hostStdout.length ∧
    c2result.2.2.wasi.fs = [] ∧
    c2result.2.2.hostStderr = [] := by
  have htab : (initHostState []).wasi.table 1 = some .stdout := rfl
  refine ⟨?_, ?_, ?_, ?_, ?_, ?_⟩ <;>
    simp [c2result, c2bufs, fdWrite, htab, initHostState, WasiFdCtx.init]

/-! ## Filesystem lemmas (shared by the C9 development) -/

theorem assocGet_assocSet {β : Type} (es : List (String × β)) (name : String)
    (v : β) : assocGet (assocSet es name v) name = some v := by
  induction es with
  | nil => simp [assocSet, assocGet]
  | cons kv rest ih =>
    obtain ⟨k, w⟩ := kv
    by_cases hk : k = name
    · subst hk
      simp [assocSet, assocGet]
    · simp [assocSet, assocGet, hk, ih]

theorem followDirs_after_modifyDirs (g : Fs → Option Fs) :
    ∀ (dirs : List String) (entries entries' : Fs),
      modifyDirs g entries dirs = some entries' →
      ∃ sub sub', followDirs entries dirs = some sub ∧ g sub = some sub' ∧
        followDirs entries' dirs = some sub' := by
  intro dirs
  induction dirs with
  | nil =>
    intro entries entries' h
    exact ⟨entries, entries', rfl, h, rfl⟩
  | cons c cs ih =>
    intro entries entries' h
    unfold modifyDirs at h
    cases hget : assocGet entries c with
    | none => simp [hget] at h
    | some e =>
      cases e with
      | file f => simp [hget] at h
      | dir sub0 =>
        simp only [hget] at h
        cases hmod : modifyDirs g sub0 cs with
        | none => simp [hmod] at h
        | some sub2 =>
          simp only [hmod] at h
          injection h with h'
          obtain ⟨a, b, h1, h2, h3⟩ := ih sub0 sub2 hmod
          refine ⟨a, b, ?_, h2, ?_⟩
          · simp [followDirs, hget, h1]
          · subst h'
            simp [followDirs, assocGet_assocSet, h3]

theorem modifyDirs_some_of_followDirs (g : Fs → Option Fs) :
    ∀ (dirs : List String) (entries sub sub' : Fs),
      followDirs entries dirs = some sub → g sub = some sub' →
      ∃ entries', modifyDirs g entries dirs = some entries' := by
  intro dirs
  induction dirs with
  | nil =>
    intro entries sub sub' h1 h2
    unfold followDirs at h1
    injection h1 with h1'
    subst h1'
    exact ⟨sub', by simpa [modifyDirs] using h2⟩
  | cons c cs ih =>
    intro entries sub sub' h1 h2
    unfold followDirs at h1
    cases hget : assocGet entries c with
    | none => simp [hget] at h1
    | some e =>
      cases e with
      | file f => simp [hget] at h1
      | dir sub0 =>
        simp only [hget] at h1
        obtain ⟨e', he'⟩ := ih sub0 sub sub' h1 h2
        exact ⟨assocSet entries c (.dir e'), by simp [modifyDirs, hget, he']⟩

theorem getFileAt_setFileAt (fs fs' : Fs) (path : String) (f : MemFile)
    (hset : setFileAt fs path f = some fs') :
    getFileAt fs' path = some f := by
  unfold setFileAt at hset
  unfold getFileAt
  cases hres : resolvePath path with
  | none => simp [hres] at hset
  | some dn =>
    obtain ⟨dirs, name⟩ := dn
    rw [hres] at hset
    dsimp only at hset ⊢
    obtain ⟨sub, sub', h1, h2, h3⟩ :=
      followDirs_after_modifyDirs _ dirs fs fs' hset
    rw [h3]
    cases hga : assocGet sub name with
    | none => simp [hga] at h2
    | some e =>
      cases e with
      | dir d => simp [hga] at h2
      | file f0 =>
        simp only [hga] at h2
        injection h2 with h2'
        subst h2'
        simp [assocGet_assocSet]

theorem setFileAt_some_of_getFileAt (fs : Fs) (path : String) (f g0 : MemFile)
    (hget : getFileAt fs path = some g0) :
    ∃ fs', setFileAt fs path f = some fs' := by
  unfold getFileAt at hget
  unfold setFileAt
  cases hres : resolvePath path with
  | none => simp [hres] at hget
  | some dn =>
    obtain ⟨dirs, name⟩ := dn
    rw [hres] at hget
    dsimp only at hget ⊢
    cases hfd : followDirs fs dirs with
    | none => simp [hfd] at hget
    | some entries =>
      simp only [hfd] at hget
      cases hga : assocGet entries name with
      | none => simp [hga] at hget
      | some e =>
        cases e with
        | dir d => simp [hga] at hget
        | file f0 =>
          exact modifyDirs_some_of_followDirs _ dirs fs entries
            (assocSet entries name (.file f)) hfd (by rw [hga])

/-! ## C9 — handle cursors -/

/-- **C9, counterexample.** The claim states that each open of a file
produces a handle with its own independent cursor, so after two opens a
read through one handle leaves the position observed by the other at `0`.
On the code it is false: `MemoryFile` derives `Clone` and its
`position: Arc<RwLock<usize>>` is shared by every clone that
`MemoryDirectory::get_file` hands out, so after reading three bytes
through one handle of `f`, the position observed through the other handle
is `3`, not `0`. -/
theorem handles_share_cursor_counterexample :
    ((handleRead c9fs "f" 3).map (·.1)) = some [10, 11, 12] ∧
    ((handleRead c9fs "f" 3).bind fun r => handleTell r.2 "f") = some 3 ∧
    (3 : Nat) ≠ 0 :=
  ⟨rfl, rfl, by decide⟩

/-- Observed `fd_tell` position through any handle of the file at `path`:
the stored (shared) cursor. -/
theorem handleTell_of_getFileAt (fs : Fs) (path : String) (f : MemFile)
    (hget : getFileAt fs path = some f) : handleTell fs path = some f.pos := by
  unfold handleTell handleSeek
  rw [hget]
  dsimp only
  rw [if_neg (by omega)]
  obtain ⟨fs', hset⟩ := setFileAt_some_of_getFileAt fs path
    { f with pos := (((f.pos : Int)) + 0).toNat } f hget
  rw [hset]
  simp

/-- **C9, amended.** Each open of a memory file returns a handle over the
shared storage *and* the shared cursor (the source's `#[derive(Clone)]`
aliases the `Arc`-held position cell), so a read through one handle moves
the position observed through every other handle of that file: after a
read of `bufLen` bytes from position `f.pos`, any handle's `fd_tell`
reports `f.pos + min bufLen (f.data.length - f.pos)` rather than its own
private position. -/
theorem handles_share_cursor (fs fs' : Fs) (path : String) (f : MemFile)
    (out : List Nat) (bufLen : Nat)
    (hget : getFileAt fs path = some f)
    (hpos : f.pos < f.data.length)
    (hread : handleRead fs path bufLen = some (out, fs')) :
    handleTell fs' path
      = some (f.pos + min bufLen (f.data.length - f.pos)) := by
  unfold handleRead at hread
  rw [hget] at hread
  have hnot : ¬ f.pos ≥ f.data.length := by omega
  dsimp only at hread
  rw [if_neg hnot] at hread
  cases hset : setFileAt fs path
      { f with pos := f.pos + min bufLen (f.data.length - f.pos) } with
  | none => simp [hset] at hread
  | some fs2 =>
    simp only [hset] at hread
    injection hread with h1
    have hfs : fs2 = fs' := congrArg Prod.snd h1
    subst hfs
    have hget' : getFileAt fs2 path
        = some { f with pos := f.pos + min bufLen (f.data.length - f.pos) } :=
      getFileAt_setFileAt fs fs2 path _ hset
    simpa using handleTell_of_getFileAt fs2 path _ hget'

/-- **C9, witness.** Instantiation of `handles_share_cursor` at the
concrete file `f`: after reading three of its five bytes through one
handle, the other handle observes position `3`. -/
theorem handles_share_cursor_witness :
    handleTell c9fsAfterRead "f" = some 3 := by
  have h := handles_share_cursor c9fs c9fsAfterRead "f"
    ⟨false, [10, 11, 12, 13, 14], 0⟩ [10, 11, 12] 3 rfl (by decide) rfl
  simpa using h

/-! ## String lemmas (shared by the C1 development) -/

theorem isPrefixL_append_self : ∀ (p rest : List Char),
    isPrefixL p (p ++ rest) = true := by
  intro p
  induction p with
  | nil => intro rest; rfl
  | cons a asRest ih => intro rest; simp [isPrefixL, ih]

theorem isSuffixL_append_self (s pre : List Char) :
    isSuffixL s (pre ++ s) = true := by
  unfold isSuffixL
  rw [List.reverse_append]
  exact isPrefixL_append_self _ _

theorem stripPrefixL_append (p rest : List Char) :
    stripPrefixL p (p ++ rest) = some rest := by
  unfold stripPrefixL
  rw [isPrefixL_append_self]
  simp [List.drop_left]

theorem stripSuffixL_append (p pre : List Char) :
    stripSuffixL p (pre ++ p) = some pre := by
  unfold stripSuffixL
  rw [isSuffixL_append_self]
  simp only [if_true, List.length_append, Nat.add_sub_cancel]
  rw [List.take_left]

/-- A path under `/subcontent/` does not pass the `/metadata/` prefix test
(the second characters differ). -/
theorem notPrefix_meta_of_sub (rest : List Char) :
    isPrefixL "/metadata/".toList ("/subcontent/".toList ++ rest) = false :=
  rfl

/-- After stripping `/subcontent/`, the remainder starts with `m`, not
`/`, so the repeated trim stops. -/
theorem notPrefix_sub_of_meta (rest : List Char) :
    isPrefixL "/subcontent/".toList ("metadata_".toList ++ rest) = false :=
  rfl

theorem trimStartMatchesL_subcontent (rest : List Char) :
    trimStartMatchesL "/subcontent/".toList
      ("/subcontent/".toList ++ ("metadata_".toList ++ rest))
      = "metadata_".toList ++ rest := by
  rw [trimStartMatchesL.eq_def,
    dif_pos ⟨by decide, isPrefixL_append_self _ _⟩]
  rw [show ("/subcontent/".toList).length = ("/subcontent/".toList).length
      from rfl]
  rw [List.drop_left]
  rw [trimStartMatchesL.eq_def, dif_neg]
  intro h
  rw [notPrefix_sub_of_meta] at h
  exact Bool.false_ne_true h.2

/-- Decomposition of the tracked path grouped at the `/subcontent/`
boundary. -/
theorem pathToList (n : String) :
    ("/subcontent/metadata_" ++ n ++ ".json").toList
      = "/subcontent/".toList
        ++ ("metadata_".toList ++ (n.toList ++ ".json".toList)) := by
  show ((("/subcontent/metadata_" ++ n) ++ ".json")).data = _
  rw [String.data_append, String.data_append]
  rw [show ("/subcontent/metadata_").data
      = "/subcontent/".toList ++ "metadata_".toList from rfl]
  simp [List.append_assoc]

/-- Decomposition grouped at the `metadata_` prefix boundary. -/
theorem pathToList2 (n : String) :
    ("/subcontent/metadata_" ++ n ++ ".json").toList
      = "/subcontent/metadata_".toList ++ (n.toList ++ ".json".toList) := by
  rw [pathToList]
  rw [show ("/subcontent/metadata_").toList
      = "/subcontent/".toList ++ "metadata_".toList from rfl]
  simp [List.append_assoc]

/-- Decomposition grouped at the `.json` suffix boundary. -/
theorem pathToList3 (n : String) :
    ("/subcontent/metadata_" ++ n ++ ".json").toList
      = ("/subcontent/metadata_".toList ++ n.toList) ++ ".json".toList := by
  rw [pathToList2]
  simp [List.append_assoc]

theorem not_startsWith_metadata (n : String) :
    rsStartsWith ("/subcontent/metadata_" ++ n ++ ".json") "/metadata/"
      = false := by
  unfold rsStartsWith
  rw [pathToList]
  exact notPrefix_meta_of_sub _

theorem startsWith_subcontent_meta (n : String) :
    rsStartsWith ("/subcontent/metadata_" ++ n ++ ".json")
      "/subcontent/metadata_" = true := by
  unfold rsStartsWith
  rw [pathToList2]
  exact isPrefixL_append_self _ _

theorem endsWith_json (n : String) :
    rsEndsWith ("/subcontent/metadata_" ++ n ++ ".json") ".json" = true := by
  unfold rsEndsWith
  rw [pathToList3]
  exact isSuffixL_append_self _ _

/-- Extraction of `N` from `/subcontent/metadata_N.json`
(`wasi_impl.rs:374-377`): trimming `/subcontent/`, stripping the
`metadata_` prefix and the `.json` suffix recovers exactly `N`. -/
theorem extractN (n : String) :
    (rsStripPrefix (rsTrimStartMatches
        ("/subcontent/metadata_" ++ n ++ ".json") "/subcontent/")
      "metadata_").bind (fun r => rsStripSuffix r ".json") = some n := by
  unfold rsTrimStartMatches
  rw [pathToList, trimStartMatchesL_subcontent]
  unfold rsStripPrefix
  rw [show (("metadata_".toList ++ (n.toList ++ ".json".toList)).asString).toList
      = "metadata_".toList ++ (n.toList ++ ".json".toList) from rfl]
  rw [stripPrefixL_append]
  simp only [Option.map_some', Option.some_bind]
  unfold rsStripSuffix
  rw [show ((n.toList ++ ".json".toList).asString).toList
      = n.toList ++ ".json".toList from rfl]
  rw [stripSuffixL_append]
  simp only [Option.map_some']
  rw [show (n.toList).asString = n from rfl]

/-! ## C1 — close-triggered sub-content emission -/

/-- Projection of `fdCloseHost` onto the parts the C1 claim speaks about:
the errno and the WASI context come straight from `fd_close`, and when the
close produced no `/metadata/` payload, the processing context's
sub-content vector grows by exactly the returned emission (if any). -/
theorem fdCloseHost_proj (pS : List Nat → Option SubMeta)
    (pM : List Nat → Option MetadataFileContent) (st : HostState) (fd : Nat) :
    (fdCloseHost pS pM st fd).1 = (fdClose pS st.wasi fd).1 ∧
    (fdCloseHost pS pM st fd).2.wasi = (fdClose pS st.wasi fd).2.2 ∧
    ((fdClose pS st.wasi fd).2.1.metadata_content = none →
      (fdCloseHost pS pM st fd).2.subcontent
        = st.subcontent
          ++ (fdClose pS st.wasi fd).2.1.subcontent_emission.toList) := by
  unfold fdCloseHost
  rcases hc : fdClose pS st.wasi fd with ⟨errno, res, ctx'⟩
  obtain ⟨mc, se⟩ := res
  dsimp only
  cases mc with
  | some content =>
    cases hpm : pM content <;> cases se <;> simp [hpm]
  | none =>
    cases se <;> simp

/-- Dispatch of `fd_close` on a descriptor tracked as
`/subcontent/metadata_N.json`: the descriptor leaves the table, the close
succeeds, and the result carries whatever `process_subcontent_metadata`
produced. -/
theorem fdClose_subcontent_branch (pS : List Nat → Option SubMeta)
    (ctx : WasiFdCtx) (fd : Nat) (openPath n : String)
    (hfd : 2 < fd)
    (hlook : ctx.table fd
      = some (.file openPath
          (some ("/subcontent/metadata_" ++ n ++ ".json")))) :
    fdClose pS ctx fd
      = (.success,
         ⟨none,
          (processSubcontentMetadata pS ctx.fs
            ("/subcontent/metadata_" ++ n ++ ".json")).1⟩,
         { fs := (processSubcontentMetadata pS ctx.fs
             ("/subcontent/metadata_" ++ n ++ ".json")).2
           table := fun k => if k = fd then none else ctx.table k
           nextFd := ctx.nextFd }) := by
  unfold fdClose
  rw [if_neg (by omega : ¬ fd ≤ 2), hlook]
  dsimp only
  rw [not_startsWith_metadata]
  rw [startsWith_subcontent_meta, endsWith_json]
  rcases hp : processSubcontentMetadata pS ctx.fs
      ("/subcontent/metadata_" ++ n ++ ".json") with ⟨em, fs'⟩
  simp [hp]

/-- Evaluation of `process_subcontent_metadata` once the metadata file has
been read and parsed: the metadata file is deleted, then either a slice
emission is produced (both `offset` and `length` present) or the paired
data file is consumed by `take_file_bytes`. -/
theorem processSubcontentMetadata_parsed (pS : List Nat → Option SubMeta)
    (fs : Fs) (n : String) (c : List Nat) (md : SubMeta) (fs1 : Fs)
    (hread : readFileFs fs ("/subcontent/metadata_" ++ n ++ ".json")
      = some (c, fs1))
    (hparse : pS c = some md) :
    processSubcontentMetadata pS fs ("/subcontent/metadata_" ++ n ++ ".json")
      = (match md.offset, md.length with
         | some o, some l =>
           (some ⟨.slice o l, md.filename⟩,
            removeAt fs1 ("/subcontent/metadata_" ++ n ++ ".json"))
         | _, _ =>
           match takeFileBytes
               (removeAt fs1 ("/subcontent/metadata_" ++ n ++ ".json"))
               ("/subcontent/data_" ++ n ++ ".bin") with
           | none =>
             (none, removeAt fs1 ("/subcontent/metadata_" ++ n ++ ".json"))
           | some (b, fs3) => (some ⟨.bytes b, md.filename⟩, fs3)) := by
  unfold processSubcontentMetadata
  rw [extractN]
  dsimp only
  rw [hread]
  dsimp only
  rw [hparse]
  dsimp only
  obtain ⟨fn, off, len⟩ := md
  cases off <;> cases len <;> rfl

/-- **C1 (confirmed).** For every `fd_close` of a descriptor whose tracked
path is `/subcontent/metadata_N.json`, once the host has read that file
and parsed it as JSON `{filename, offset?, length?}` (`parseSubMeta`
models `String::from_utf8` + `serde_json`): the close succeeds and the
descriptor leaves the table; if both `offset` and `length` are present, a
slice emission `{filename, offset, length}` is appended to the processing
context and the metadata file is removed from the filesystem; otherwise,
when `take_file_bytes("/subcontent/data_N.bin")` yields the data file's
final bytes (removing that file, without copying), a bytes emission with
exactly those bytes is appended and the metadata file is removed. -/
theorem fd_close_subcontent_emission
    (parseSubMeta : List Nat → Option SubMeta)
    (parseMetadata : List Nat → Option MetadataFileContent)
    (st : HostState) (fd : Nat) (openPath n path : String)
    (c : List Nat) (md : SubMeta) (fs1 : Fs)
    (hfd : 2 < fd)
    (hpath : path = "/subcontent/metadata_" ++ n ++ ".json")
    (hlook : st.wasi.table fd = some (.file openPath (some path)))
    (hread : readFileFs st.wasi.fs path = some (c, fs1))
    (hparse : parseSubMeta c = some md) :
    (fdCloseHost parseSubMeta parseMetadata st fd).1 = .success ∧
    (fdCloseHost parseSubMeta parseMetadata st fd).2.wasi.table fd = none ∧
    (∀ o l, md.offset = some o → md.length = some l →
      (fdCloseHost parseSubMeta parseMetadata st fd).2.subcontent
        = st.subcontent ++ [⟨.slice o l, md.filename⟩] ∧
      (fdCloseHost parseSubMeta parseMetadata st fd).2.wasi.fs
        = removeAt fs1 path) ∧
    (md.offset = none ∨ md.length = none →
      ∀ b fs3,
        takeFileBytes (removeAt fs1 path)
          ("/subcontent/data_" ++ n ++ ".bin") = some (b, fs3) →
        (fdCloseHost parseSubMeta parseMetadata st fd).2.subcontent
          = st.subcontent ++ [⟨.bytes b, md.filename⟩] ∧
        (fdCloseHost parseSubMeta parseMetadata st fd).2.wasi.fs = fs3) := by
  subst hpath
  obtain ⟨hproj1, hproj2, hproj3⟩ :=
    fdCloseHost_proj parseSubMeta parseMetadata st fd
  have hbranch := fdClose_subcontent_branch parseSubMeta st.wasi fd openPath n
    hfd hlook
  have hproc := processSubcontentMetadata_parsed parseSubMeta st.wasi.fs n c
    md fs1 hread hparse
  rw [hbranch] at hproj1 hproj2 hproj3
  refine ⟨hproj1, ?_, ?_, ?_⟩
  · rw [hproj2]
    simp
  · intro o l ho hl
    rw [ho, hl] at hproc
    dsimp only at hproc
    constructor
    · rw [hproj3 rfl, hproc]
      rfl
    · rw [hproj2, hproc]
  · intro hnone b fs3 htake
    have hproc' :
        processSubcontentMetadata parseSubMeta st.wasi.fs
          ("/subcontent/metadata_" ++ n ++ ".json")
          = (some ⟨.bytes b, md.filename⟩, fs3) := by
      rcases hnone with ho | hl
      · rw [ho] at hproc
        cases hlen : md.length with
        | none => rw [hlen] at hproc; rw [hproc, htake]
        | some l => rw [hlen] at hproc; rw [hproc, htake]
      · cases hoff : md.offset with
        | none => rw [hl, hoff] at hproc; rw [hproc, htake]
        | some o => rw [hl, hoff] at hproc; rw [hproc, htake]
    constructor
    · rw [hproj3 rfl, hproc']
      rfl
    · rw [hproj2, hproc']

/-- **C1, witness.** Instantiation of `fd_close_subcontent_emission` at the
concrete state `c1st`: closing descriptor 4 (tracked as
`/subcontent/metadata_0.json`, parsed as a slice descriptor with offset 3
and length 4) succeeds, appends the slice emission to the context, and
removes the metadata file. -/
theorem fd_close_subcontent_emission_witness :
    (fdCloseHost c1parseSub c1parseMeta c1st 4).1 = .success ∧
    (fdCloseHost c1parseSub c1parseMeta c1st 4).2.subcontent
      = [⟨.slice 3 4, "kid.bin"⟩] ∧
    (fdCloseHost c1parseSub c1parseMeta c1st 4).2.wasi.fs
      = removeAt c1fs1 "/subcontent/metadata_0.json" := by
  have h := fd_close_subcontent_emission c1parseSub c1parseMeta c1st 4
    "subcontent/metadata_0.json" "0" "/subcontent/metadata_0.json"
    [123] c1meta c1fs1 (by decide) (by rfl) (by rfl) (by rfl) (by rfl)
  obtain ⟨h1, _h2, h3, _h4⟩ := h
  have hs := h3 3 4 rfl rfl
  refine ⟨h1, ?_, hs.2⟩
  rw [hs.1]
  rfl

end Wadup
